import Mathlib

/-!
Verification of the crash-data cleaning pipeline (`data_sample.py`).

The script loads a small tabular dataset (pandas `DataFrame`), applies a fixed
sequence of cleaning steps (`clean_data`), and renders a per-column data
dictionary (`write_data_dictionary`).  We shallowly embed the `DataFrame` as a
row-major `Table` of `Value` cells and translate each pandas operation that the
script uses into an explicit Lean function, keeping the source's names where
possible.

Modelling conventions:
* a missing cell (`None`, `NaN`, `NaT`, `pd.NA`) is `Value.absent`;
* floating-point numbers are modelled as rationals (the script only compares
  them against integer bounds, which is exact);
* a `datetime64[ns]` value is its integer count of nanoseconds since the epoch;
* operations that pandas performs on a whole column at once (`astype`,
  `.str.strip`, masked assignment, …) are modelled cell-wise, which is
  observably equivalent because the script never uses cross-cell state;
* the range-check comparisons `df["latitude"] < -90` raise a `TypeError` in
  pandas when a cell is a string (or other non-numeric, non-missing value), so
  the corresponding steps return `Except`.
-/

/-- A cell of the table: absent (`None`/`NaN`/`NaT`/`pd.NA`), a text value, a
numeric value (rational model of a Python float), or a datetime
(nanoseconds since the Unix epoch, pandas `datetime64[ns]`). -/
inductive Value where
  | absent : Value
  | str : String → Value
  | num : ℚ → Value
  | date : Int → Value
deriving DecidableEq, Repr

/-- Row-major model of a pandas `DataFrame`: named columns and a list of rows.
Every row is intended to have length `cols.length`; out-of-range cell reads
default to `Value.absent`. -/
structure Table where
  cols : List String
  rows : List (List Value)
deriving DecidableEq, Repr

def emptyTable : Table := ⟨[], []⟩

/-! ### Python string primitives used by the script -/

/-- Python `str.strip()` on the character list: drop whitespace from both
ends. -/
def pyStripList (l : List Char) : List Char :=
  ((l.dropWhile Char.isWhitespace).reverse.dropWhile Char.isWhitespace).reverse

/-- Python `str.strip()`. -/
def pyStrip (s : String) : String := ⟨pyStripList s.data⟩

/-- Character-level step of `str.replace(" ", "_")`. -/
def underscoreChar (c : Char) : Char := if c = ' ' then '_' else c

/-- The column-name normalization `c.strip().lower().replace(" ", "_")`
from line 50 of the script (ASCII model of Python `str.lower`). -/
def normalize_colname (s : String) : String :=
  ⟨((pyStripList s.data).map Char.toLower).map underscoreChar⟩

/-- Helper for Python `str.title()`: the boolean carries whether the previous
character was alphabetic; a letter following a non-letter is uppercased, any
other letter is lowercased (ASCII model). -/
def titleGo : Bool → List Char → List Char
  | _, [] => []
  | prevAlpha, c :: cs =>
      (if c.isAlpha then (if prevAlpha then c.toLower else c.toUpper) else c)
        :: titleGo c.isAlpha cs

/-- Python `str.title()` (ASCII model). -/
def pyTitle (s : String) : String := ⟨titleGo false s.data⟩

/-! ### Numeric parsing (`pd.to_numeric(..., errors="coerce")`) -/

/-- Parse a non-empty all-digit character list as a natural number. -/
def digitsToNat : List Char → Option Nat
  | [] => none
  | l => l.foldl (fun acc c => do
      let n ← acc
      if c.isDigit then some (n * 10 + (c.toNat - 48)) else none) (some 0)

/-- Value of a (possibly empty) digit list read as a decimal fraction. -/
def fracValue (l : List Char) : Option ℚ :=
  l.foldr (fun c acc => do
      let q ← acc
      if c.isDigit then some ((q + ((c.toNat : ℚ) - 48)) / 10) else none)
    (some 0)

/-- Parse the digit part `intpart[.fracpart]` of a float literal; at least one
of the two parts must be non-empty. -/
def parseUnsigned (l : List Char) : Option ℚ := do
  let intPart := l.takeWhile (· ≠ '.')
  let rest := l.dropWhile (· ≠ '.')
  match rest with
  | [] => do let n ← digitsToNat intPart; pure (n : ℚ)
  | _ :: fracPart =>
      if fracPart.any (· = '.') then none
      else match intPart, fracPart with
        | [], [] => none
        | [], f => do
            let q ← fracValue f
            if f.all Char.isDigit then pure q else none
        | i, f => do
            let n ← digitsToNat i
            let q ← fracValue f
            if f.all Char.isDigit then pure ((n : ℚ) + q) else none

/-- Model of the text-to-number conversion performed by
`pd.to_numeric(..., errors="coerce")` on a string cell: optional sign, decimal
digits with an optional fractional part, surrounding whitespace tolerated;
anything else fails. -/
def parseNumString (s : String) : Option ℚ :=
  match pyStripList s.data with
  | '-' :: rest => do let q ← parseUnsigned rest; pure (-q)
  | '+' :: rest => parseUnsigned rest
  | l => parseUnsigned l

/-- `pd.to_numeric(col, errors="coerce")`, cell-wise: numbers pass through,
parseable text becomes a number, everything else (including missing input)
becomes missing. A datetime cell is modelled as coerced to missing; no claim
exercises that case. -/
def toNumericCoerce : Value → Value
  | .num q => .num q
  | .str s => match parseNumString s with
      | some q => .num q
      | none => .absent
  | .absent => .absent
  | .date _ => .absent

/-! ### Date parsing (`pd.to_datetime(..., errors="coerce")`) -/

/-- Is `y` a Gregorian leap year? -/
def isLeapYear (y : Nat) : Bool := y % 4 = 0 && (y % 100 ≠ 0 || y % 400 = 0)

/-- Number of days in month `m` of year `y`. -/
def daysInMonth (y m : Nat) : Nat :=
  if m = 2 then (if isLeapYear y then 29 else 28)
  else if m = 4 ∨ m = 6 ∨ m = 9 ∨ m = 11 then 30 else 31

/-- Days from 1970-01-01 to `y-m-d` (proleptic Gregorian, the civil-days
algorithm used by standard datetime libraries). -/
def daysFromCivil (y m d : Int) : Int :=
  let y := if m ≤ 2 then y - 1 else y
  let era := (if 0 ≤ y then y else y - 399) / 400
  let yoe := y - era * 400
  let mp := (m + 9) % 12
  let doy := (153 * mp + 2) / 5 + d - 1
  let doe := yoe * 365 + yoe / 4 - yoe / 100 + doy
  era * 146097 + doe - 719468

/-- Nanoseconds since the epoch of midnight on `y-m-d`. -/
def dateNs (y m d : Nat) : Int :=
  daysFromCivil (y : Int) (m : Int) (d : Int) * 86400000000000

/-- Try to read three character groups as a calendar date `Y-M-D`. -/
def parseYMD (a b c : List Char) : Option Int := do
  let y ← digitsToNat a
  let m ← digitsToNat b
  let d ← digitsToNat c
  if 1 ≤ m ∧ m ≤ 12 ∧ 1 ≤ d ∧ d ≤ daysInMonth y m then pure (dateNs y m d)
  else none

/-- Split a character list at every occurrence of `sep` (the single-character
case of Python `str.split(sep)`). -/
def splitOnChar (sep : Char) : List Char → List (List Char)
  | [] => [[]]
  | c :: cs =>
      if c = sep then [] :: splitOnChar sep cs
      else match splitOnChar sep cs with
        | [] => [[c]]
        | g :: gs => (c :: g) :: gs

/-- Model of the pandas date parser on a string cell, restricted to the
`YYYY-MM-DD` and `YYYY/MM/DD` shapes the repository exercises; any other text
fails to parse. -/
def parseDateString (s : String) : Option Int :=
  let l := pyStripList s.data
  match splitOnChar '-' l with
  | [a, b, c] => parseYMD a b c
  | _ =>
      match splitOnChar '/' l with
      | [a, b, c] => parseYMD a b c
      | _ => none

/-- `pd.to_datetime(col, errors="coerce")`, cell-wise: datetimes pass through,
parseable text becomes a datetime, unparseable text and missing input become
missing (`NaT`), and a numeric cell is read as nanoseconds since the epoch
(pandas' default unit), rounding the float model to the nearest integer. -/
def toDatetimeCoerce : Value → Value
  | .date n => .date n
  | .str s => match parseDateString s with
      | some n => .date n
      | none => .absent
  | .absent => .absent
  | .num q => .date ⌊q + 1/2⌋

/-! ### Text cleaning for the `city` column -/

/-- Decimal-ish rendering of the rational model of a Python float, used only
by `astype(str)` on numeric cells; approximates Python `str(float)`.  No claim
depends on this rendering. -/
def renderNum (q : ℚ) : String :=
  if q.den = 1 then toString q.num ++ ".0"
  else toString q.num ++ "/" ++ toString q.den

/-- Rendering of a datetime cell under `astype(str)`; approximates the pandas
`Timestamp` string.  No claim depends on this rendering. -/
def renderDate (n : Int) : String := "Timestamp " ++ toString n

/-- `col.astype(str)`, cell-wise.  Crucially, pandas renders a missing value
as literal text rather than keeping it missing: `NaN` becomes `"nan"` (`None`
becomes `"None"`, `pd.NA` becomes `"<NA>"`).  The model uses `"nan"`, the
rendering of the float `NaN` marker that `read_csv` produces; every claim
below depends only on the result being a non-empty, non-missing string. -/
def astypeStr : Value → Value
  | .absent => .str "nan"
  | .str s => .str s
  | .num q => .str (renderNum q)
  | .date n => .str (renderDate n)

/-- `col.str.strip()`, cell-wise: strings are stripped, missing values stay
missing, and non-string cells become missing (the pandas `.str` accessor
yields `NaN` on non-string elements). -/
def strStripOp : Value → Value
  | .str s => .str (pyStrip s)
  | .absent => .absent
  | _ => .absent

/-- The masked assignment `df.loc[df["city"] == "", "city"] = pd.NA`,
cell-wise: the empty string becomes missing, every other cell is kept. -/
def emptyToNA (v : Value) : Value := if v = .str "" then .absent else v

/-- `col.str.title()`, cell-wise: strings are title-cased, missing values stay
missing, non-string cells become missing. -/
def strTitleOp : Value → Value
  | .str s => .str (pyTitle s)
  | .absent => .absent
  | _ => .absent

/-! ### Range checks for `latitude` / `longitude` -/

/-- One cell of the comparison-and-mask step
`df.loc[(col < lo) | (col > hi), name] = pd.NA`.  A numeric cell out of range
becomes missing, a numeric cell in range and a missing cell are kept
(comparisons against `NaN` are `False`), and a string or datetime cell makes
the whole comparison raise `TypeError`, as pandas does when comparing such a
cell with an integer bound. -/
def cellRangeCheck (lo hi : ℚ) : Value → Except String Value
  | .num q => .ok (if q < lo ∨ hi < q then .absent else .num q)
  | .absent => .ok .absent
  | .str _ => .error "TypeError: comparison between str and int"
  | .date _ => .error "TypeError: comparison between datetime and int"

/-! ### Column-wise application -/

/-- Index of the column a pandas `df[name]` lookup selects. -/
def colIdx (t : Table) (name : String) : Option Nat :=
  t.cols.findIdx? (· == name)

/-- `df[name] = f(df[name])` for a total cell transform `f`: if the column is
present, rewrite that cell of every row; otherwise leave the table unchanged
(the script guards every step with `if name in df.columns`). -/
def applyCol (name : String) (f : Value → Value) (t : Table) : Table :=
  match colIdx t name with
  | none => t
  | some j => ⟨t.cols, t.rows.map fun r => r.set j (f (r.getD j .absent))⟩

/-- Row-by-row effectful map (the evaluation order pandas uses when a
column-wise operation can raise): stop at the first failing row. -/
def mapExceptRows (f : List Value → Except String (List Value)) :
    List (List Value) → Except String (List (List Value))
  | [] => .ok []
  | r :: rs => do
      let r2 ← f r
      let rs2 ← mapExceptRows f rs
      pure (r2 :: rs2)

/-- As `applyCol`, for a cell transform that can raise. -/
def applyColE (name : String) (f : Value → Except String Value) (t : Table) :
    Except String Table :=
  match colIdx t name with
  | none => .ok t
  | some j => do
      let rows ← mapExceptRows (fun r => do
        let v ← f (r.getD j .absent)
        pure (r.set j v)) t.rows
      pure ⟨t.cols, rows⟩

/-- Is the cell numeric or missing (the cells on which the pandas range-check
comparison is defined)? -/
def isNumOrAbsentV : Value → Bool
  | .num _ => true
  | .absent => true
  | _ => false

/-- Total counterpart of `cellRangeCheck`: the value a cell that survives the
comparison ends up with. -/
def cellRangeTotal (lo hi : ℚ) : Value → Value
  | .num q => if q < lo ∨ hi < q then .absent else .num q
  | v => v

/-- The five column names the cleaner treats specially. -/
def recognizedNames : List String :=
  ["crash_date", "city", "injuries", "latitude", "longitude"]

/-! ### Duplicate removal (`df.drop_duplicates()`) -/

/-- The pandas `duplicated()` mask: a row is marked when an equal row occurred
earlier; `seen` accumulates the rows already passed. -/
def duplicatedGo (seen : List (List Value)) : List (List Value) → List Bool
  | [] => []
  | r :: rs => decide (r ∈ seen) :: duplicatedGo (r :: seen) rs

/-- `df.drop_duplicates()` on the row list: keep exactly the rows whose
`duplicated()` mark is `false`. -/
def dropDupRows (rs : List (List Value)) : List (List Value) :=
  (rs.zip (duplicatedGo [] rs)).filterMap fun p => if p.2 then none else some p.1

/-- `df.drop_duplicates()` (line 73 of the script). -/
def drop_duplicates (t : Table) : Table := ⟨t.cols, dropDupRows t.rows⟩

/-- Declarative description of first-occurrence deduplication: keep the head,
drop its later duplicates, recurse.  Used to state what `drop_duplicates`
achieves; proved equal to it below. -/
def keepFirstOccurrences : List (List Value) → List (List Value)
  | [] => []
  | r :: rs => r :: keepFirstOccurrences (rs.filter (· ≠ r))
termination_by l => l.length
decreasing_by
  exact Nat.lt_succ_of_le (List.length_filter_le _ _)

/-! ### The cleaning pipeline (`clean_data`, lines 46–75) -/

/-- Line 50: `df.columns = [c.strip().lower().replace(" ", "_") for c in df.columns]`. -/
def renameColumns (t : Table) : Table :=
  ⟨t.cols.map normalize_colname, t.rows⟩

/-- Lines 50–64 of `clean_data`: the column-name renaming followed by the four
total column transforms (dates, the three city statements, injuries), in the
source's order. -/
def preSteps (t : Table) : Table :=
  applyCol "injuries" toNumericCoerce
    (applyCol "city" strTitleOp
      (applyCol "city" emptyToNA
        (applyCol "city" (fun v => strStripOp (astypeStr v))
          (applyCol "crash_date" toDatetimeCoerce
            (renameColumns t)))))

/-- Lines 50–70 of `clean_data`: every step before duplicate removal, in the
source's order.  The latitude/longitude steps can raise (string cells make the
pandas comparison fail), hence the `Except`. -/
def normalizeSteps (t : Table) : Except String Table := do
  let t7 ← applyColE "latitude" (cellRangeCheck (-90) 90) (preSteps t)
  let t8 ← applyColE "longitude" (cellRangeCheck (-180) 180) t7
  pure t8

/-- `clean_data` (lines 46–75): normalization steps, then duplicate removal. -/
def clean_data (t : Table) : Except String Table := do
  let u ← normalizeSteps t
  pure (drop_duplicates u)

/-! ### Imperative model of `clean_data` (for the no-mutation contract) -/

/-- Imperative model of `clean_data` over a heap of `DataFrame` objects
(`List Table`, a table's address is its index), mirroring the source
line by line: the caller passes the address `a` of its frame; line 49's
`df = df.copy()` allocates a fresh object at the end of the heap, each
in-place statement of lines 50–70 mutates that copy, and line 73's
`df = df.drop_duplicates()` rebinds the local name to a newly allocated
object, whose address is returned. -/
def clean_data_prog (h : List Table) (a : Nat) :
    Except String (List Table × Nat) :=
  let b := h.length
  let h1 := h ++ [h.getD a emptyTable]
  let h2 := h1.set b (renameColumns (h1.getD b emptyTable))
  let h3 := h2.set b (applyCol "crash_date" toDatetimeCoerce (h2.getD b emptyTable))
  let h4 := h3.set b (applyCol "city" (fun v => strStripOp (astypeStr v)) (h3.getD b emptyTable))
  let h5 := h4.set b (applyCol "city" emptyToNA (h4.getD b emptyTable))
  let h6 := h5.set b (applyCol "city" strTitleOp (h5.getD b emptyTable))
  let h7 := h6.set b (applyCol "injuries" toNumericCoerce (h6.getD b emptyTable))
  do
    let v ← applyColE "latitude" (cellRangeCheck (-90) 90) (h7.getD b emptyTable)
    let h8 := h7.set b v
    let v2 ← applyColE "longitude" (cellRangeCheck (-180) 180) (h8.getD b emptyTable)
    let h9 := h8.set b v2
    let h10 := h9 ++ [drop_duplicates (h9.getD b emptyTable)]
    pure (h10, h10.length - 1)

/-! ### The loader's built-in fallback sample (lines 34–43) -/

/-- The 4-row example `DataFrame` that `load_data` builds when no
`raw_data.csv` is present, transposed to rows.  `None` entries are
`Value.absent`. -/
def sample_df : Table :=
  ⟨["Crash Date", "City", "Injuries", "Latitude", "Longitude"],
   [[.str "2026-05-01", .str "Cincinnati", .str "2",
       .num (mkRat 391031 10000), .num (mkRat (-845120) 10000)],
    [.str "2026/05/02", .str "CINCINNATI ", .str "0",
       .num (mkRat 391032 10000), .num (mkRat (-845121) 10000)],
    [.absent, .str "Covington", .str "unknown",
       .absent, .num (mkRat (-845200) 10000)],
    [.str "2026-05-04", .str "", .str "1",
       .num (mkRat 390500 10000), .absent]]⟩

/-! ### The data dictionary (`write_data_dictionary`, lines 78–92) -/

/-- Values of column `j`, i.e. `df[col]` read off the row-major table. -/
def colValues (t : Table) (j : Nat) : List Value :=
  t.rows.map fun r => r.getD j .absent

def isAbsentV : Value → Bool
  | .absent => true
  | _ => false

def isStrV : Value → Bool
  | .str _ => true
  | _ => false

def isNumV : Value → Bool
  | .num _ => true
  | _ => false

def isDateV : Value → Bool
  | .date _ => true
  | _ => false

/-- `int(df[col].isna().sum())`: the number of missing cells in a column. -/
def missingCount (vs : List Value) : Nat := vs.countP isAbsentV

/-- `str(df[col].dtype)`, modelled by inspecting the stored values: any string
makes the column `object`; otherwise datetimes give `datetime64[ns]`, numbers
give `float64` (the script's numeric columns all carry missing values or come
from `to_numeric` coercion, which produce floats), and a column with no typed
value at all reports `object`. -/
def dtypeOf (vs : List Value) : String :=
  if vs.any isStrV then "object"
  else if vs.any isDateV then "datetime64[ns]"
  else if vs.any isNumV then "float64"
  else "object"

/-- Line 89's f-string: one bulleted entry per column.  The separator
reproduces the source file's literal bytes. -/
def dictEntryLine (name dtype : String) (missing : Nat) : String :=
  "- **" ++ name ++ "** (" ++ dtype ++ ") â€” missing: " ++ toString missing ++ "\n"

/-- Lines 81–84: the fixed preamble of the data dictionary. -/
def dictPreamble : List String :=
  ["# Data Dictionary / Methodology\n",
   "**Source:** Public sample or local `raw_data.csv` (if provided)\n",
   "**Cleaning steps:** standardized column names, parsed dates, trimmed text, coerced numeric fields, basic lat/lon validation, removed duplicates.\n",
   "\n## Columns\n"]

/-- `write_data_dictionary` (lines 78–92), modelled as the list of lines the
function writes to the documentation file. -/
def write_data_dictionary (t : Table) : List String :=
  dictPreamble ++ (List.range t.cols.length).map fun j =>
    dictEntryLine (t.cols.getD j "") (dtypeOf (colValues t j))
      (missingCount (colValues t j))

/-- The table that cleaning the fallback sample is expected to produce. -/
def cleaned_sample : Table :=
  ⟨["crash_date", "city", "injuries", "latitude", "longitude"],
   [[.date (dateNs 2026 5 1), .str "Cincinnati", .num 2,
       .num (mkRat 391031 10000), .num (mkRat (-845120) 10000)],
    [.date (dateNs 2026 5 2), .str "Cincinnati", .num 0,
       .num (mkRat 391032 10000), .num (mkRat (-845121) 10000)],
    [.absent, .str "Covington", .absent,
       .absent, .num (mkRat (-845200) 10000)],
    [.date (dateNs 2026 5 4), .absent, .num 1,
       .num (mkRat 390500 10000), .absent]]⟩

/-! ## Theorems -/

/-! ### Helper lemmas about Python `strip` -/

theorem pyStripList_eq (l : List Char) :
    pyStripList l = (l.dropWhile Char.isWhitespace).rdropWhile Char.isWhitespace := rfl

theorem head?_dropWhile_ws (xs : List Char) (c : Char)
    (h : (xs.dropWhile Char.isWhitespace).head? = some c) : c.isWhitespace = false := by
  have h2 := List.head?_dropWhile_not Char.isWhitespace xs
  rw [h] at h2
  exact h2

theorem pyStripList_head?_not_ws (l : List Char) (c : Char)
    (h : (pyStripList l).head? = some c) : c.isWhitespace = false := by
  apply head?_dropWhile_ws l c
  obtain ⟨t, ht⟩ := List.rdropWhile_prefix Char.isWhitespace (l.dropWhile Char.isWhitespace)
  rw [pyStripList_eq] at h
  rw [← ht, List.head?_append, h]
  rfl

theorem pyStripList_getLast?_not_ws (l : List Char) (c : Char)
    (h : (pyStripList l).getLast? = some c) : c.isWhitespace = false := by
  rw [pyStripList_eq, List.rdropWhile, List.getLast?_reverse] at h
  exact head?_dropWhile_ws _ c h

theorem pyStripList_eq_self (l : List Char)
    (hh : ∀ c, l.head? = some c → c.isWhitespace = false)
    (hl : ∀ c, l.getLast? = some c → c.isWhitespace = false) :
    pyStripList l = l := by
  rw [pyStripList_eq]
  have h1 : l.dropWhile Char.isWhitespace = l := by
    cases l with
    | nil => rfl
    | cons a as =>
        have := hh a rfl
        simp [List.dropWhile_cons, this]
  rw [h1, List.rdropWhile_eq_self_iff]
  intro hne
  have := hl (l.getLast hne) (List.getLast?_eq_getLast l hne)
  simp [this]

theorem pyStripList_idem (l : List Char) :
    pyStripList (pyStripList l) = pyStripList l :=
  pyStripList_eq_self _ (pyStripList_head?_not_ws l) (pyStripList_getLast?_not_ws l)

/-! ### Helper lemmas about the character transforms -/

theorem toLower_eq_of_not_upper (c : Char) (h : ¬(c.toNat ≥ 65 ∧ c.toNat ≤ 90)) :
    c.toLower = c := by
  simp only [Char.toLower]
  exact if_neg h

theorem char_upper_cases (c : Char) (h : c.toNat ≥ 65 ∧ c.toNat ≤ 90) :
    c ∈ ['A', 'B', 'C', 'D', 'E', 'F', 'G', 'H', 'I', 'J', 'K', 'L', 'M',
         'N', 'O', 'P', 'Q', 'R', 'S', 'T', 'U', 'V', 'W', 'X', 'Y', 'Z'] := by
  obtain ⟨h1, h2⟩ := h
  have hc : c = Char.ofNat c.toNat := (Char.ofNat_toNat c).symm
  set n := c.toNat with hn
  interval_cases n <;> rw [hc] <;> decide

theorem toLower_toLower (c : Char) : c.toLower.toLower = c.toLower := by
  by_cases h : c.toNat ≥ 65 ∧ c.toNat ≤ 90
  · have hm := char_upper_cases c h
    fin_cases hm <;> decide
  · rw [toLower_eq_of_not_upper c h]
    exact toLower_eq_of_not_upper c h

theorem isWhitespace_toLower (c : Char) : c.toLower.isWhitespace = c.isWhitespace := by
  by_cases h : c.toNat ≥ 65 ∧ c.toNat ≤ 90
  · have hm := char_upper_cases c h
    fin_cases hm <;> decide
  · rw [toLower_eq_of_not_upper c h]

theorem underscore_not_ws (c : Char) (h : c.isWhitespace = false) :
    (underscoreChar c).isWhitespace = false := by
  rw [underscoreChar]
  split
  · decide
  · exact h

theorem normChar_idem (c : Char) :
    underscoreChar (underscoreChar c.toLower).toLower = underscoreChar c.toLower := by
  by_cases h : c.toLower = ' '
  · rw [h]; decide
  · have h2 : underscoreChar c.toLower = c.toLower := by rw [underscoreChar, if_neg h]
    rw [h2, toLower_toLower, h2]

theorem normList_idem (l : List Char) :
    ((pyStripList (((pyStripList l).map Char.toLower).map underscoreChar)).map
        Char.toLower).map underscoreChar
      = ((pyStripList l).map Char.toLower).map underscoreChar := by
  have hstrip : pyStripList (((pyStripList l).map Char.toLower).map underscoreChar)
      = ((pyStripList l).map Char.toLower).map underscoreChar := by
    apply pyStripList_eq_self
    · intro c hc
      simp only [List.head?_map] at hc
      cases hh : (pyStripList l).head? with
      | none => rw [hh] at hc; simp at hc
      | some d =>
          rw [hh] at hc
          simp at hc
          subst hc
          exact underscore_not_ws _
            (by rw [isWhitespace_toLower]; exact pyStripList_head?_not_ws l d hh)
    · intro c hc
      simp only [List.getLast?_map] at hc
      cases hh : (pyStripList l).getLast? with
      | none => rw [hh] at hc; simp at hc
      | some d =>
          rw [hh] at hc
          simp at hc
          subst hc
          exact underscore_not_ws _
            (by rw [isWhitespace_toLower]; exact pyStripList_getLast?_not_ws l d hh)
  rw [hstrip]
  induction pyStripList l with
  | nil => rfl
  | cons a as ih => simp only [List.map_cons, normChar_idem, List.cons.injEq, true_and]; exact ih

/-- C9: column-name normalization (trim, lowercase, spaces to underscores) is a
deterministic function of the name and is idempotent: normalizing an
already-normalized column name returns it unchanged. -/
theorem c9_normalize_colname_idempotent (s : String) :
    normalize_colname (normalize_colname s) = normalize_colname s :=
  congrArg String.mk (normList_idem s.data)

/-! ### Concrete evaluations of the pipeline -/

/-- C1: the claim that an absent `city` value remains absent fails on the
code.  On a one-row table whose `city` cell is missing, `astype(str)`
materializes the missing marker as the text `"nan"`, which survives the
empty-string check and is title-cased to `"Nan"`: the cleaned cell is a
string, not absent. -/
theorem c1_absent_city_becomes_text :
    clean_data ⟨["city"], [[Value.absent]]⟩ =
      .ok ⟨["city"], [[Value.str "Nan"]]⟩ ∧
    Value.str "Nan" ≠ Value.absent :=
  ⟨rfl, by decide⟩

/-- C2: cleaning is not idempotent.  Cleaning a table whose `city` cell is the
empty string yields an absent cell; cleaning that result again turns the
absent cell into the text `"Nan"` (via `astype(str)`), so the second cleaning
changes the table. -/
theorem c2_clean_data_not_idempotent :
    clean_data ⟨["city"], [[Value.str ""]]⟩ =
      .ok ⟨["city"], [[Value.absent]]⟩ ∧
    clean_data ⟨["city"], [[Value.absent]]⟩ =
      .ok ⟨["city"], [[Value.str "Nan"]]⟩ ∧
    (⟨["city"], [[Value.str "Nan"]]⟩ : Table) ≠ ⟨["city"], [[Value.absent]]⟩ :=
  ⟨rfl, rfl, by decide⟩

/-- C3 counterexample: cleaning does raise for a malformed cell.  A non-numeric
string in the `latitude` column makes the range-check comparison fail with a
type error instead of being converted to absent. -/
theorem c3_string_latitude_raises :
    clean_data ⟨["latitude"], [[Value.str "abc"]]⟩ =
      .error "TypeError: comparison between str and int" := rfl

/-- C10 counterexample: a column whose normalized name is not recognized does
not keep all of its cell values: duplicate-row removal drops cells from every
column, including unrecognized ones. -/
theorem c10_unrecognized_column_loses_cells :
    clean_data ⟨["other"], [[Value.num 1], [Value.num 1]]⟩ =
      .ok ⟨["other"], [[Value.num 1]]⟩ ∧
    ([[Value.num 1]] : List (List Value)) ≠ [[Value.num 1], [Value.num 1]] :=
  ⟨rfl, by decide⟩

/-- C6: cleaning the loader's built-in 4-row fallback sample yields exactly the
expected table: 4 pairwise-distinct rows; row 2's city becomes "Cincinnati";
row 3's crash date and injuries are absent; row 4's city is absent; the five
columns appear in order and each has exactly one missing value; and the data
dictionary renders one entry per column with these counts. -/
theorem c6_sample_cleaning :
    clean_data sample_df = .ok cleaned_sample ∧
    cleaned_sample.rows.length = 4 ∧
    List.Pairwise (· ≠ ·) cleaned_sample.rows ∧
    (cleaned_sample.rows.getD 1 []).getD 1 .absent = .str "Cincinnati" ∧
    (cleaned_sample.rows.getD 2 []).getD 0 .absent = .absent ∧
    (cleaned_sample.rows.getD 2 []).getD 2 .absent = .absent ∧
    (cleaned_sample.rows.getD 3 []).getD 1 .absent = .absent ∧
    cleaned_sample.cols = ["crash_date", "city", "injuries", "latitude", "longitude"] ∧
    (List.range 5).map (fun j => missingCount (colValues cleaned_sample j)) =
      [1, 1, 1, 1, 1] ∧
    write_data_dictionary cleaned_sample = dictPreamble ++
      [dictEntryLine "crash_date" "datetime64[ns]" 1,
       dictEntryLine "city" "object" 1,
       dictEntryLine "injuries" "float64" 1,
       dictEntryLine "latitude" "float64" 1,
       dictEntryLine "longitude" "float64" 1] :=
  ⟨by rfl, rfl, by decide, rfl, rfl, rfl, rfl, rfl, by rfl, by rfl⟩

/-- C7: for every cleaned table, the data dictionary consists of the fixed
preamble followed by exactly one record per column, in the column order of the
table, and the record of column `j` is the bulleted entry built from that
column's name, its observed value type, and its count of absent values. -/
theorem c7_dictionary_one_entry_per_column (t : Table) :
    (write_data_dictionary t).length = 4 + t.cols.length ∧
    ∀ j, j < t.cols.length →
      (write_data_dictionary t).getD (4 + j) "" =
        dictEntryLine (t.cols.getD j "") (dtypeOf (colValues t j))
          (missingCount (colValues t j)) := by
  constructor
  · simp [write_data_dictionary, dictPreamble]
    omega
  · intro j hj
    unfold write_data_dictionary
    rw [List.getD_eq_getElem?_getD,
      List.getElem?_append_right (by simp [dictPreamble])]
    have hlen : dictPreamble.length = 4 := rfl
    rw [hlen, Nat.add_sub_cancel_left, List.getElem?_map, List.getElem?_range hj]
    rfl

/-- Witness for C7 at a concrete one-column table. -/
theorem c7_dictionary_witness :
    (write_data_dictionary ⟨["a"], [[Value.absent]]⟩).getD 4 "" =
      dictEntryLine "a" "object" 1 :=
  (c7_dictionary_one_entry_per_column ⟨["a"], [[Value.absent]]⟩).2 0 (by decide)

/-! ### Duplicate-removal lemmas -/

theorem dropDupGo_spec (rs : List (List Value)) : ∀ seen : List (List Value),
    ((rs.zip (duplicatedGo seen rs)).filterMap fun p =>
        if p.2 then none else some p.1)
      = keepFirstOccurrences (rs.filter fun r => decide (r ∉ seen)) := by
  induction rs with
  | nil => intro seen; simp [duplicatedGo, keepFirstOccurrences]
  | cons r rs ih =>
      intro seen
      rw [duplicatedGo, List.zip_cons_cons, List.filterMap_cons, List.filter_cons]
      by_cases h : r ∈ seen
      · have hd : decide (r ∈ seen) = true := by simp [h]
        have hp : decide (r ∉ seen) = false := by simp [h]
        rw [hd, hp]
        simp only [Bool.false_eq_true, if_false, if_true, ih (r :: seen)]
        congr 1
        apply List.filter_congr
        intro x hx
        apply decide_eq_decide.mpr
        constructor
        · intro hn hc; exact hn (List.mem_cons_of_mem r hc)
        · intro hn hc
          rcases List.mem_cons.mp hc with rfl | hc
          · exact hn h
          · exact hn hc
      · have hd : decide (r ∈ seen) = false := by simp [h]
        have hp : decide (r ∉ seen) = true := by simp [h]
        rw [hd, hp]
        simp only [Bool.false_eq_true, if_false, if_true, ih (r :: seen)]
        rw [keepFirstOccurrences]
        congr 1
        rw [List.filter_filter]
        congr 1
        apply List.filter_congr
        intro x hx
        have hiff : (x ∉ r :: seen) ↔ (x ≠ r ∧ x ∉ seen) := by
          constructor
          · intro hn
            exact ⟨fun hc => hn (hc ▸ List.mem_cons_self r seen),
                   fun hc => hn (List.mem_cons_of_mem r hc)⟩
          · intro ⟨h1, h2⟩ hc
            rcases List.mem_cons.mp hc with rfl | hc
            · exact h1 rfl
            · exact h2 hc
        rw [decide_eq_decide.mpr hiff, Bool.decide_and]

theorem dropDupRows_eq_keepFirst (rs : List (List Value)) :
    dropDupRows rs = keepFirstOccurrences rs := by
  rw [dropDupRows, dropDupGo_spec rs []]
  congr 1
  apply List.filter_eq_self.mpr
  intro x hx
  simp

theorem keepFirstOccurrences_sublist (rs : List (List Value)) :
    (keepFirstOccurrences rs).Sublist rs := by
  induction rs using keepFirstOccurrences.induct with
  | case1 => rw [keepFirstOccurrences]
  | case2 r rs ih =>
      rw [keepFirstOccurrences]
      exact (ih.trans (List.filter_sublist _)).cons₂ r

theorem keepFirstOccurrences_pairwise (rs : List (List Value)) :
    List.Pairwise (· ≠ ·) (keepFirstOccurrences rs) := by
  induction rs using keepFirstOccurrences.induct with
  | case1 => rw [keepFirstOccurrences]; exact List.Pairwise.nil
  | case2 r rs ih =>
      rw [keepFirstOccurrences]
      refine List.Pairwise.cons ?_ ih
      intro x hx
      have hxf := (keepFirstOccurrences_sublist _).mem hx
      have hne := List.of_mem_filter hxf
      simp only [ne_eq, decide_not, Bool.not_eq_true', decide_eq_false_iff_not] at hne
      exact fun he => hne he.symm

/-- C5: duplicate removal is the last step of cleaning: whenever cleaning
succeeds, the output's rows are exactly the first-occurrence deduplication of
the rows produced by all prior normalization steps (so rows that become equal
only through cleaning are merged), no two output rows are identical, and the
output rows form an order-preserving subsequence of the normalized rows. -/
theorem c5_duplicates_removed_last (t u t' : Table)
    (hn : normalizeSteps t = .ok u) (hc : clean_data t = .ok t') :
    t'.cols = u.cols ∧
    t'.rows = keepFirstOccurrences u.rows ∧
    List.Pairwise (· ≠ ·) t'.rows ∧
    List.Sublist t'.rows u.rows := by
  have hd : clean_data t = .ok (drop_duplicates u) := by
    rw [clean_data, hn]; rfl
  rw [hc] at hd
  have ht' : t' = drop_duplicates u := Except.ok.inj hd
  subst ht'
  refine ⟨rfl, ?_, ?_, ?_⟩
  · exact dropDupRows_eq_keepFirst u.rows
  · show List.Pairwise (· ≠ ·) (dropDupRows u.rows)
    rw [dropDupRows_eq_keepFirst]
    exact keepFirstOccurrences_pairwise u.rows
  · show List.Sublist (dropDupRows u.rows) u.rows
    rw [dropDupRows_eq_keepFirst]
    exact keepFirstOccurrences_sublist u.rows

/-- Witness for C5 on a concrete two-row table with a duplicate row. -/
theorem c5_duplicates_removed_witness :
    (⟨["x"], [[Value.num 1]]⟩ : Table).cols =
      (⟨["x"], [[Value.num 1], [Value.num 1]]⟩ : Table).cols ∧
    (⟨["x"], [[Value.num 1]]⟩ : Table).rows =
      keepFirstOccurrences (⟨["x"], [[Value.num 1], [Value.num 1]]⟩ : Table).rows ∧
    List.Pairwise (· ≠ ·) (⟨["x"], [[Value.num 1]]⟩ : Table).rows ∧
    List.Sublist (⟨["x"], [[Value.num 1]]⟩ : Table).rows
      (⟨["x"], [[Value.num 1], [Value.num 1]]⟩ : Table).rows :=
  c5_duplicates_removed_last ⟨["x"], [[Value.num 1], [Value.num 1]]⟩
    ⟨["x"], [[Value.num 1], [Value.num 1]]⟩ ⟨["x"], [[Value.num 1]]⟩ rfl rfl

/-! ### Frame lemmas for the column-wise steps -/

theorem applyCol_cols (n : String) (f : Value → Value) (t : Table) :
    (applyCol n f t).cols = t.cols := by
  unfold applyCol
  cases colIdx t n <;> rfl

theorem applyCol_rows_length (n : String) (f : Value → Value) (t : Table) :
    (applyCol n f t).rows.length = t.rows.length := by
  unfold applyCol
  cases colIdx t n <;> simp

theorem colIdx_name (t : Table) (n : String) (j : Nat) (h : colIdx t n = some j) :
    j < t.cols.length ∧ t.cols.getD j "" = n := by
  rw [colIdx] at h
  obtain ⟨hlt, hp, _⟩ := List.findIdx?_eq_some_iff_getElem.mp h
  refine ⟨hlt, ?_⟩
  have he : t.cols[j] = n := eq_of_beq hp
  rw [List.getD_eq_getElem?_getD, List.getElem?_eq_getElem hlt]
  simpa using he

theorem applyCol_cell_of_ne (n : String) (f : Value → Value) (t : Table)
    (i j : Nat) (hj : t.cols.getD j "" ≠ n) :
    ((applyCol n f t).rows.getD i []).getD j .absent
      = (t.rows.getD i []).getD j .absent := by
  unfold applyCol
  cases hidx : colIdx t n with
  | none => rfl
  | some j0 =>
      obtain ⟨hlt, hname⟩ := colIdx_name t n j0 hidx
      have hne : j0 ≠ j := fun he => hj (by rw [← he]; exact hname)
      simp only [List.getD_eq_getElem?_getD, List.getElem?_map]
      cases hr : t.rows[i]? with
      | none => rfl
      | some r =>
          simp only [Option.map_some', Option.getD_some]
          rw [List.getElem?_set_ne hne]

theorem applyCol_cell_mem_of_ne (n : String) (f : Value → Value) (t : Table)
    (r' : List Value) (h : r' ∈ (applyCol n f t).rows) :
    ∃ r ∈ t.rows, ∀ j, t.cols.getD j "" ≠ n →
      r'.getD j .absent = r.getD j .absent := by
  unfold applyCol at h
  cases hidx : colIdx t n with
  | none => rw [hidx] at h; exact ⟨r', h, fun j hj => rfl⟩
  | some j0 =>
      rw [hidx] at h
      simp only [List.mem_map] at h
      obtain ⟨r, hr, hset⟩ := h
      refine ⟨r, hr, fun j hj => ?_⟩
      obtain ⟨hlt, hname⟩ := colIdx_name t n j0 hidx
      have hne : j0 ≠ j := fun he => hj (by rw [← he]; exact hname)
      simp only [← hset, List.getD_eq_getElem?_getD]
      rw [List.getElem?_set_ne hne]

theorem ebind_ok {α β : Type} (x : α) (k : α → Except String β) :
    (Except.ok x >>= k) = k x := rfl

theorem ebind_err {α β : Type} (e : String) (k : α → Except String β) :
    ((Except.error e : Except String α) >>= k) = Except.error e := rfl

theorem mapExceptRows_ok_forall (f : List Value → Except String (List Value))
    (rs rs2 : List (List Value)) (h : mapExceptRows f rs = .ok rs2) :
    ∀ r ∈ rs, ∃ v, f r = .ok v := by
  induction rs generalizing rs2 with
  | nil => intro r hr; cases hr
  | cons a as ih =>
      intro r hr
      rw [mapExceptRows] at h
      cases hf : f a with
      | error e => rw [hf, ebind_err] at h; cases h
      | ok v =>
          rw [hf, ebind_ok] at h
          cases hm : mapExceptRows f as with
          | error e => rw [hm, ebind_err] at h; cases h
          | ok vs =>
              rcases List.mem_cons.mp hr with rfl | hr2
              · exact ⟨v, hf⟩
              · exact ih vs hm r hr2

theorem applyColE_eq_total (lo hi : ℚ) (n : String) (t : Table)
    (h : ∀ j, colIdx t n = some j →
      ∀ r ∈ t.rows, isNumOrAbsentV (r.getD j .absent) = true) :
    applyColE n (cellRangeCheck lo hi) t
      = .ok (applyCol n (cellRangeTotal lo hi) t) := by
  unfold applyColE applyCol
  cases hidx : colIdx t n with
  | none => rfl
  | some j =>
      have hcells := h j hidx
      simp only
      have key : ∀ rs : List (List Value),
          (∀ r ∈ rs, isNumOrAbsentV (r.getD j .absent) = true) →
          mapExceptRows (fun r => do
              let v ← cellRangeCheck lo hi (r.getD j .absent)
              pure (r.set j v)) rs
            = .ok (rs.map fun r => r.set j (cellRangeTotal lo hi (r.getD j .absent))) := by
        intro rs
        induction rs with
        | nil => intro _; rfl
        | cons r rs ih =>
            intro hall
            have hr := hall r (List.mem_cons_self r rs)
            have hrs := ih (fun x hx => hall x (List.mem_cons_of_mem r hx))
            rw [mapExceptRows, List.map_cons, hrs]
            cases hv : r.getD j .absent with
            | num q => rfl
            | absent => rfl
            | str s => rw [hv] at hr; simp [isNumOrAbsentV] at hr
            | date d => rw [hv] at hr; simp [isNumOrAbsentV] at hr
      rw [key t.rows hcells]
      rfl

theorem cellRangeCheck_ok_inv (lo hi : ℚ) (v w : Value)
    (h : cellRangeCheck lo hi v = .ok w) : isNumOrAbsentV v = true := by
  cases v with
  | num q => rfl
  | absent => rfl
  | str s => cases h
  | date d => cases h

theorem applyColE_range_inv (lo hi : ℚ) (n : String) (t u : Table)
    (h : applyColE n (cellRangeCheck lo hi) t = .ok u) :
    (∀ j, colIdx t n = some j →
        ∀ r ∈ t.rows, isNumOrAbsentV (r.getD j .absent) = true) ∧
    u = applyCol n (cellRangeTotal lo hi) t := by
  have hcond : ∀ j, colIdx t n = some j →
      ∀ r ∈ t.rows, isNumOrAbsentV (r.getD j .absent) = true := by
    intro j hidx r hr
    unfold applyColE at h
    rw [hidx] at h
    simp only at h
    cases hm : mapExceptRows (fun r => do
        let v ← cellRangeCheck lo hi (r.getD j .absent)
        pure (r.set j v)) t.rows with
    | error e => rw [hm, ebind_err] at h; cases h
    | ok rows =>
        obtain ⟨v, hv⟩ := mapExceptRows_ok_forall _ _ _ hm r hr
        cases hc : cellRangeCheck lo hi (r.getD j .absent) with
        | error e => rw [hc, ebind_err] at hv; cases hv
        | ok w => exact cellRangeCheck_ok_inv lo hi _ w hc
  refine ⟨hcond, ?_⟩
  have ht := applyColE_eq_total lo hi n t hcond
  rw [ht] at h
  exact (Except.ok.inj h).symm

/-! ### The pre-range-check normalization steps preserve untouched columns -/

theorem preSteps_cell (t : Table) (i j : Nat)
    (h1 : (renameColumns t).cols.getD j "" ≠ "crash_date")
    (h2 : (renameColumns t).cols.getD j "" ≠ "city")
    (h3 : (renameColumns t).cols.getD j "" ≠ "injuries") :
    ((preSteps t).rows.getD i []).getD j .absent
      = (t.rows.getD i []).getD j .absent := by
  unfold preSteps
  rw [applyCol_cell_of_ne _ _ _ i j (by simp only [applyCol_cols]; exact h3),
      applyCol_cell_of_ne _ _ _ i j (by simp only [applyCol_cols]; exact h2),
      applyCol_cell_of_ne _ _ _ i j (by simp only [applyCol_cols]; exact h2),
      applyCol_cell_of_ne _ _ _ i j (by simp only [applyCol_cols]; exact h2),
      applyCol_cell_of_ne _ _ _ i j h1]
  rfl

theorem preSteps_rows_length (t : Table) :
    (preSteps t).rows.length = t.rows.length := by
  unfold preSteps
  simp only [applyCol_rows_length]
  rfl

theorem preSteps_cols (t : Table) :
    (preSteps t).cols = (renameColumns t).cols := by
  unfold preSteps
  simp only [applyCol_cols]

theorem renameColumns_getD (t : Table) (j : Nat) (hj : j < t.cols.length) :
    (renameColumns t).cols.getD j "" = normalize_colname (t.cols.getD j "") := by
  rw [renameColumns]
  simp only
  rw [List.getD_eq_getElem?_getD, List.getElem?_map,
    List.getD_eq_getElem?_getD, List.getElem?_eq_getElem hj]
  rfl

theorem colIdx_eq_of_cols (t1 t2 : Table) (h : t1.cols = t2.cols) (n : String) :
    colIdx t1 n = colIdx t2 n := by
  rw [colIdx, colIdx, h]

theorem preSteps_latlon_cells (t : Table) (nm : String)
    (hnm : nm = "latitude" ∨ nm = "longitude")
    (h : ∀ j, j < t.cols.length →
      (normalize_colname (t.cols.getD j "") = "latitude" ∨
       normalize_colname (t.cols.getD j "") = "longitude") →
      ∀ r ∈ t.rows, isNumOrAbsentV (r.getD j .absent) = true)
    (j : Nat) (hidx : colIdx (preSteps t) nm = some j) :
    ∀ r ∈ (preSteps t).rows, isNumOrAbsentV (r.getD j .absent) = true := by
  intro r hr
  obtain ⟨hjlt, hjname⟩ := colIdx_name _ nm j hidx
  rw [preSteps_cols] at hjlt hjname
  have hjlen : j < t.cols.length := by
    have : (renameColumns t).cols.length = t.cols.length := by
      rw [renameColumns]; simp
    rw [← this]; exact hjlt
  have hnorm : normalize_colname (t.cols.getD j "") = nm := by
    rw [← renameColumns_getD t j hjlen]; exact hjname
  obtain ⟨i, hi, hri⟩ := List.mem_iff_getElem.mp hr
  have hgd : (preSteps t).rows.getD i [] = r := by
    rw [List.getD_eq_getElem?_getD, List.getElem?_eq_getElem hi,
      Option.getD_some, hri]
  have hcell := preSteps_cell t i j
    (by rw [hjname]; rcases hnm with rfl | rfl <;> decide)
    (by rw [hjname]; rcases hnm with rfl | rfl <;> decide)
    (by rw [hjname]; rcases hnm with rfl | rfl <;> decide)
  rw [← hgd, hcell]
  have hilen : i < t.rows.length := by
    rw [← preSteps_rows_length t]; exact hi
  apply h j hjlen (by rcases hnm with rfl | rfl
                      · exact Or.inl hnorm
                      · exact Or.inr hnorm)
  rw [List.getD_eq_getElem?_getD, List.getElem?_eq_getElem hilen, Option.getD_some]
  exact List.getElem_mem hilen

/-- C3 (amended): cell-level malformedness in the `crash_date`, `city` and
`injuries` columns is converted to absent without any exception, and cleaning
succeeds on every table whose latitude/longitude columns contain only numeric
or absent cells; only a non-numeric, non-absent latitude or longitude value
makes cleaning raise. -/
theorem c3_no_raise_when_latlon_numeric (t : Table)
    (h : ∀ j, j < t.cols.length →
      (normalize_colname (t.cols.getD j "") = "latitude" ∨
       normalize_colname (t.cols.getD j "") = "longitude") →
      ∀ r ∈ t.rows, isNumOrAbsentV (r.getD j .absent) = true) :
    ∃ u, clean_data t = .ok u := by
  have h7 := applyColE_eq_total (-90) 90 "latitude" (preSteps t)
    (fun j hidx => preSteps_latlon_cells t "latitude" (Or.inl rfl) h j hidx)
  have hlon : ∀ j, colIdx
      (applyCol "latitude" (cellRangeTotal (-90) 90) (preSteps t)) "longitude" = some j →
      ∀ r ∈ (applyCol "latitude" (cellRangeTotal (-90) 90) (preSteps t)).rows,
        isNumOrAbsentV (r.getD j .absent) = true := by
    intro j hidx r hr
    obtain ⟨hjlt, hjname⟩ := colIdx_name _ _ j hidx
    rw [applyCol_cols] at hjlt hjname
    obtain ⟨i, hi, hri⟩ := List.mem_iff_getElem.mp hr
    have hgd : (applyCol "latitude" (cellRangeTotal (-90) 90) (preSteps t)).rows.getD i []
        = r := by
      rw [List.getD_eq_getElem?_getD, List.getElem?_eq_getElem hi,
        Option.getD_some, hri]
    have hpres := applyCol_cell_of_ne "latitude" (cellRangeTotal (-90) 90) (preSteps t)
      i j (by rw [hjname]; decide)
    rw [← hgd, hpres]
    have hilen : i < (preSteps t).rows.length := by
      rw [← applyCol_rows_length "latitude" (cellRangeTotal (-90) 90) (preSteps t)]
      exact hi
    apply preSteps_latlon_cells t "longitude" (Or.inr rfl) h j
      (by rw [← colIdx_eq_of_cols _ _ (applyCol_cols "latitude" (cellRangeTotal (-90) 90) (preSteps t)) "longitude"]
          exact hidx)
    rw [List.getD_eq_getElem?_getD, List.getElem?_eq_getElem hilen, Option.getD_some]
    exact List.getElem_mem hilen
  have h8 := applyColE_eq_total (-180) 180 "longitude"
    (applyCol "latitude" (cellRangeTotal (-90) 90) (preSteps t)) hlon
  refine ⟨drop_duplicates (applyCol "longitude" (cellRangeTotal (-180) 180)
    (applyCol "latitude" (cellRangeTotal (-90) 90) (preSteps t))), ?_⟩
  rw [clean_data, normalizeSteps, h7, ebind_ok, h8, ebind_ok]
  rfl

/-- Witness for C3 (amended) on a table with a numeric out-of-range latitude. -/
theorem c3_no_raise_witness :
    ∃ u, clean_data ⟨["Latitude"], [[Value.num 100]]⟩ = .ok u :=
  c3_no_raise_when_latlon_numeric ⟨["Latitude"], [[Value.num 100]]⟩ (by decide)

theorem epure_eq_ok {α : Type} (x : α) : (pure x : Except String α) = Except.ok x := rfl

theorem clean_data_decomp (t t' : Table) (h : clean_data t = .ok t') :
    ∃ t7 t8 : Table,
      applyColE "latitude" (cellRangeCheck (-90) 90) (preSteps t) = .ok t7 ∧
      applyColE "longitude" (cellRangeCheck (-180) 180) t7 = .ok t8 ∧
      t' = drop_duplicates t8 := by
  rw [clean_data, normalizeSteps] at h
  cases h7 : applyColE "latitude" (cellRangeCheck (-90) 90) (preSteps t) with
  | error e => rw [h7, ebind_err, ebind_err] at h; cases h
  | ok t7 =>
      rw [h7, ebind_ok] at h
      cases h8 : applyColE "longitude" (cellRangeCheck (-180) 180) t7 with
      | error e => rw [h8, ebind_err, ebind_err] at h; cases h
      | ok t8 =>
          rw [h8, ebind_ok, epure_eq_ok, ebind_ok, epure_eq_ok] at h
          exact ⟨t7, t8, rfl, h8, (Except.ok.inj h).symm⟩

theorem getD_set_apply (r : List Value) (j : Nat) (g : Value → Value)
    (hg : g .absent = .absent) :
    (r.set j (g (r.getD j .absent))).getD j .absent = g (r.getD j .absent) := by
  by_cases hj : j < r.length
  · rw [List.getD_eq_getElem?_getD, List.getElem?_set_self hj, Option.getD_some]
  · have h0 : r.getD j .absent = .absent := by
      rw [List.getD_eq_getElem?_getD, List.getElem?_eq_none (Nat.le_of_not_lt hj)]
      rfl
    rw [List.set_eq_of_length_le (Nat.le_of_not_lt hj), h0, hg]

theorem cellRangeTotal_spec (lo hi : ℚ) (v : Value) (hv : isNumOrAbsentV v = true) :
    cellRangeTotal lo hi v = .absent ∨
      ∃ q : ℚ, cellRangeTotal lo hi v = .num q ∧ lo ≤ q ∧ q ≤ hi := by
  cases v with
  | absent => exact Or.inl rfl
  | num q =>
      have he : cellRangeTotal lo hi (Value.num q)
          = if q < lo ∨ hi < q then Value.absent else Value.num q := rfl
      by_cases hq : q < lo ∨ hi < q
      · exact Or.inl (by rw [he, if_pos hq])
      · exact Or.inr ⟨q, by rw [he, if_neg hq],
          le_of_not_lt (fun hc => hq (Or.inl hc)),
          le_of_not_lt (fun hc => hq (Or.inr hc))⟩
  | str s => exact Bool.noConfusion hv
  | date d => exact Bool.noConfusion hv

theorem applyCol_range_cell (lo hi : ℚ) (nm : String) (X : Table)
    (hnd : X.cols.Nodup) (hnm : nm ≠ "")
    (hcond : ∀ j0, colIdx X nm = some j0 →
      ∀ r ∈ X.rows, isNumOrAbsentV (r.getD j0 .absent) = true)
    (j : Nat) (hj : X.cols.getD j "" = nm) (r : List Value)
    (hr : r ∈ (applyCol nm (cellRangeTotal lo hi) X).rows) :
    r.getD j .absent = .absent ∨
      ∃ q : ℚ, r.getD j .absent = .num q ∧ lo ≤ q ∧ q ≤ hi := by
  have hjlt : j < X.cols.length := by
    by_contra hcon
    rw [List.getD_eq_getElem?_getD,
      List.getElem?_eq_none (Nat.le_of_not_lt hcon)] at hj
    exact hnm hj.symm
  have hje : X.cols[j] = nm := by
    rw [List.getD_eq_getElem?_getD, List.getElem?_eq_getElem hjlt,
      Option.getD_some] at hj
    exact hj
  unfold applyCol at hr
  cases hidx : colIdx X nm with
  | none =>
      rw [colIdx] at hidx
      have hall := List.findIdx?_eq_none_iff.mp hidx
      have := hall _ (List.getElem_mem hjlt)
      rw [hje] at this
      simp at this
  | some j0 =>
      rw [hidx] at hr
      simp only [List.mem_map] at hr
      obtain ⟨r0, hr0, hset⟩ := hr
      obtain ⟨hj0lt, hj0name⟩ := colIdx_name X nm j0 hidx
      have hj0e : X.cols[j0] = nm := by
        rw [List.getD_eq_getElem?_getD, List.getElem?_eq_getElem hj0lt,
          Option.getD_some] at hj0name
        exact hj0name
      have hje2 : j = j0 := (hnd.getElem_inj_iff).mp (hje.trans hj0e.symm)
      subst hje2
      rw [← hset, getD_set_apply r0 j (cellRangeTotal lo hi) rfl]
      exact cellRangeTotal_spec lo hi _ (hcond j hidx r0 hr0)

/-- C4: when cleaning succeeds (and the normalized column names are distinct,
as `read_csv` guarantees), every latitude cell of the output is absent or
within [-90, 90] and every longitude cell is absent or within [-180, 180];
moreover the range-check step maps out-of-range numbers to absent and keeps
absent cells absent. -/
theorem c4_latlon_in_range (t t' : Table)
    (hnd : (t.cols.map normalize_colname).Nodup)
    (hok : clean_data t = .ok t') :
    (∀ j, t'.cols.getD j "" = "latitude" → ∀ r ∈ t'.rows,
        r.getD j .absent = .absent ∨
          ∃ q : ℚ, r.getD j .absent = .num q ∧ -90 ≤ q ∧ q ≤ 90) ∧
    (∀ j, t'.cols.getD j "" = "longitude" → ∀ r ∈ t'.rows,
        r.getD j .absent = .absent ∨
          ∃ q : ℚ, r.getD j .absent = .num q ∧ -180 ≤ q ∧ q ≤ 180) ∧
    (∀ lo hi q : ℚ, (q < lo ∨ hi < q) →
        cellRangeCheck lo hi (.num q) = .ok .absent) ∧
    (∀ lo hi : ℚ, cellRangeCheck lo hi .absent = .ok .absent) := by
  obtain ⟨t7, t8, h7, h8, ht'⟩ := clean_data_decomp t t' hok
  obtain ⟨h7cond, h7eq⟩ := applyColE_range_inv _ _ _ _ _ h7
  obtain ⟨h8cond, h8eq⟩ := applyColE_range_inv _ _ _ _ _ h8
  have hcolsX : (preSteps t).cols = t.cols.map normalize_colname := by
    rw [preSteps_cols]; rfl
  have hndX : (preSteps t).cols.Nodup := by rw [hcolsX]; exact hnd
  have hc7 : t7.cols = (preSteps t).cols := by rw [h7eq, applyCol_cols]
  have hc8 : t8.cols = (preSteps t).cols := by rw [h8eq, applyCol_cols, hc7]
  have hnd7 : t7.cols.Nodup := by rw [hc7]; exact hndX
  subst ht'
  have hsub : (drop_duplicates t8).rows.Sublist t8.rows := by
    show (dropDupRows t8.rows).Sublist t8.rows
    rw [dropDupRows_eq_keepFirst]
    exact keepFirstOccurrences_sublist _
  refine ⟨?_, ?_, ?_, ?_⟩
  · intro j hj r hr
    have hr8 : r ∈ t8.rows := hsub.subset hr
    rw [h8eq] at hr8
    obtain ⟨r7, hr7, hcell⟩ := applyCol_cell_mem_of_ne "longitude" _ t7 r hr8
    have hj7 : t7.cols.getD j "" = "latitude" := by
      rw [hc7, ← hc8]; exact hj
    rw [hcell j (by rw [hj7]; decide)]
    rw [h7eq] at hr7
    exact applyCol_range_cell (-90) 90 "latitude" (preSteps t) hndX (by decide)
      h7cond j (by rw [← hc7]; exact hj7) r7 hr7
  · intro j hj r hr
    have hr8 : r ∈ t8.rows := hsub.subset hr
    rw [h8eq] at hr8
    exact applyCol_range_cell (-180) 180 "longitude" t7 hnd7 (by decide)
      h8cond j (by rw [hc7, ← hc8]; exact hj) r hr8
  · intro lo hi q hq
    have he : cellRangeCheck lo hi (Value.num q)
        = .ok (if q < lo ∨ hi < q then Value.absent else Value.num q) := rfl
    rw [he, if_pos hq]
  · intro lo hi
    rfl

/-- Witness for C4 on a table whose out-of-range latitude is nulled. -/
theorem c4_latlon_witness :
    (∀ j, (⟨["latitude"], [[Value.absent]]⟩ : Table).cols.getD j "" = "latitude" →
        ∀ r ∈ (⟨["latitude"], [[Value.absent]]⟩ : Table).rows,
        r.getD j .absent = .absent ∨
          ∃ q : ℚ, r.getD j .absent = .num q ∧ -90 ≤ q ∧ q ≤ 90) ∧
    (∀ j, (⟨["latitude"], [[Value.absent]]⟩ : Table).cols.getD j "" = "longitude" →
        ∀ r ∈ (⟨["latitude"], [[Value.absent]]⟩ : Table).rows,
        r.getD j .absent = .absent ∨
          ∃ q : ℚ, r.getD j .absent = .num q ∧ -180 ≤ q ∧ q ≤ 180) ∧
    (∀ lo hi q : ℚ, (q < lo ∨ hi < q) →
        cellRangeCheck lo hi (.num q) = .ok .absent) ∧
    (∀ lo hi : ℚ, cellRangeCheck lo hi .absent = .ok .absent) :=
  c4_latlon_in_range ⟨["latitude"], [[Value.num 100]]⟩
    ⟨["latitude"], [[Value.absent]]⟩ (by decide) rfl

theorem normalizeSteps_decomp (t u : Table) (h : normalizeSteps t = .ok u) :
    ∃ t7 : Table,
      applyColE "latitude" (cellRangeCheck (-90) 90) (preSteps t) = .ok t7 ∧
      applyColE "longitude" (cellRangeCheck (-180) 180) t7 = .ok u := by
  rw [normalizeSteps] at h
  cases h7 : applyColE "latitude" (cellRangeCheck (-90) 90) (preSteps t) with
  | error e => rw [h7, ebind_err] at h; cases h
  | ok t7 =>
      rw [h7, ebind_ok] at h
      cases h8 : applyColE "longitude" (cellRangeCheck (-180) 180) t7 with
      | error e => rw [h8, ebind_err] at h; cases h
      | ok t8 =>
          rw [h8, ebind_ok, epure_eq_ok] at h
          exact ⟨t7, rfl, by rw [h8, h]⟩

/-- C10 (amended): cleaning preserves the number and relative order of columns
(headers are only renamed by name normalization); every cell of every column
whose normalized name is not one of the five recognized names passes through
the normalization steps unchanged; and the final rows are an order-preserving
subsequence of the normalized rows (duplicate-row removal may still drop whole
rows, and with them cells of unrecognized columns). -/
theorem c10_unrecognized_columns_pass_through (t u t' : Table)
    (hn : normalizeSteps t = .ok u) (hc : clean_data t = .ok t') :
    t'.cols.length = t.cols.length ∧
    t'.cols = t.cols.map normalize_colname ∧
    u.rows.length = t.rows.length ∧
    (∀ j, j < t.cols.length →
      normalize_colname (t.cols.getD j "") ∉ recognizedNames →
      ∀ i, i < t.rows.length →
        (u.rows.getD i []).getD j .absent = (t.rows.getD i []).getD j .absent) ∧
    List.Sublist t'.rows u.rows := by
  obtain ⟨t7, h7, h8⟩ := normalizeSteps_decomp t u hn
  obtain ⟨h7cond, h7eq⟩ := applyColE_range_inv _ _ _ _ _ h7
  obtain ⟨h8cond, h8eq⟩ := applyColE_range_inv _ _ _ _ _ h8
  have ht' : t' = drop_duplicates u := by
    rw [clean_data, hn, ebind_ok, epure_eq_ok] at hc
    exact (Except.ok.inj hc).symm
  have hcolsX : (preSteps t).cols = t.cols.map normalize_colname := by
    rw [preSteps_cols]; rfl
  have hc7 : t7.cols = (preSteps t).cols := by rw [h7eq, applyCol_cols]
  have hcu : u.cols = (preSteps t).cols := by rw [h8eq, applyCol_cols, hc7]
  have hlen7 : t7.rows.length = t.rows.length := by
    rw [h7eq, applyCol_rows_length, preSteps_rows_length]
  have hlenu : u.rows.length = t.rows.length := by
    rw [h8eq, applyCol_rows_length, hlen7]
  subst ht'
  refine ⟨?_, ?_, hlenu, ?_, ?_⟩
  · show u.cols.length = t.cols.length
    rw [hcu, hcolsX, List.length_map]
  · show u.cols = t.cols.map normalize_colname
    rw [hcu, hcolsX]
  · intro j hj hrec i hi
    have hname : (renameColumns t).cols.getD j "" = normalize_colname (t.cols.getD j "") :=
      renameColumns_getD t j hj
    have hne : ∀ m ∈ recognizedNames, (renameColumns t).cols.getD j "" ≠ m := by
      intro m hm he
      exact hrec (by rw [← hname, he]; exact hm)
    have e8 : (u.rows.getD i []).getD j .absent
        = (t7.rows.getD i []).getD j .absent := by
      rw [h8eq]
      exact applyCol_cell_of_ne "longitude" _ t7 i j
        (by rw [hc7, preSteps_cols]
            exact hne "longitude" (by rw [recognizedNames]; simp))
    have e7 : (t7.rows.getD i []).getD j .absent
        = ((preSteps t).rows.getD i []).getD j .absent := by
      rw [h7eq]
      exact applyCol_cell_of_ne "latitude" _ (preSteps t) i j
        (by rw [preSteps_cols]
            exact hne "latitude" (by rw [recognizedNames]; simp))
    have e6 : ((preSteps t).rows.getD i []).getD j .absent
        = (t.rows.getD i []).getD j .absent :=
      preSteps_cell t i j
        (hne "crash_date" (by rw [recognizedNames]; simp))
        (hne "city" (by rw [recognizedNames]; simp))
        (hne "injuries" (by rw [recognizedNames]; simp))
    rw [e8, e7, e6]
  · show (dropDupRows u.rows).Sublist u.rows
    rw [dropDupRows_eq_keepFirst]
    exact keepFirstOccurrences_sublist _

/-- Witness for C10 (amended) on a table with one unrecognized column and a
duplicate row. -/
theorem c10_pass_through_witness :
    (⟨["other"], [[Value.num 1]]⟩ : Table).cols.length =
      (⟨["other"], [[Value.num 1], [Value.num 1]]⟩ : Table).cols.length ∧
    (⟨["other"], [[Value.num 1]]⟩ : Table).cols =
      (⟨["other"], [[Value.num 1], [Value.num 1]]⟩ : Table).cols.map normalize_colname ∧
    (⟨["other"], [[Value.num 1], [Value.num 1]]⟩ : Table).rows.length =
      (⟨["other"], [[Value.num 1], [Value.num 1]]⟩ : Table).rows.length ∧
    (∀ j, j < (⟨["other"], [[Value.num 1], [Value.num 1]]⟩ : Table).cols.length →
      normalize_colname ((⟨["other"], [[Value.num 1], [Value.num 1]]⟩ : Table).cols.getD j "")
        ∉ recognizedNames →
      ∀ i, i < (⟨["other"], [[Value.num 1], [Value.num 1]]⟩ : Table).rows.length →
        (((⟨["other"], [[Value.num 1], [Value.num 1]]⟩ : Table).rows.getD i []).getD j .absent)
          = (((⟨["other"], [[Value.num 1], [Value.num 1]]⟩ : Table).rows.getD i []).getD j .absent)) ∧
    List.Sublist (⟨["other"], [[Value.num 1]]⟩ : Table).rows
      (⟨["other"], [[Value.num 1], [Value.num 1]]⟩ : Table).rows :=
  c10_unrecognized_columns_pass_through
    ⟨["other"], [[Value.num 1], [Value.num 1]]⟩
    ⟨["other"], [[Value.num 1], [Value.num 1]]⟩
    ⟨["other"], [[Value.num 1]]⟩ rfl rfl

/-! ### Heap lemmas and the no-mutation contract -/

theorem heap_getD_last (h : List Table) (x : Table) :
    (h ++ [x]).getD h.length emptyTable = x := by
  rw [List.getD_eq_getElem?_getD, List.getElem?_append_right (Nat.le_refl _)]
  simp

theorem heap_set_last (h : List Table) (x y : Table) :
    (h ++ [x]).set h.length y = h ++ [y] := by
  rw [List.set_append_right _ _ (Nat.le_refl _)]
  simp

theorem heap_getD_left (h : List Table) (rest : List Table) (a : Nat)
    (ha : a < h.length) :
    (h ++ rest).getD a emptyTable = h.getD a emptyTable := by
  rw [List.getD_eq_getElem?_getD, List.getElem?_append_left ha,
    List.getD_eq_getElem?_getD]

/-- C8: the imperative cleaning routine never mutates the caller's frame:
whatever address `a` the caller passes, after a successful run the object at
`a` is unchanged (same columns, same rows, every cell equal), the returned
address is a valid, freshly allocated object, and that object holds exactly
the functional cleaning result. -/
theorem c8_no_mutation_of_input (h : List Table) (a : Nat) (h2 : List Table)
    (r : Nat) (ha : a < h.length)
    (hok : clean_data_prog h a = .ok (h2, r)) :
    h2.getD a emptyTable = h.getD a emptyTable ∧
    r < h2.length ∧
    clean_data (h.getD a emptyTable) = .ok (h2.getD r emptyTable) := by
  simp only [clean_data_prog, heap_getD_last, heap_set_last] at hok
  rw [show (applyCol "injuries" toNumericCoerce
      (applyCol "city" strTitleOp
        (applyCol "city" emptyToNA
          (applyCol "city" (fun v => strStripOp (astypeStr v))
            (applyCol "crash_date" toDatetimeCoerce
              (renameColumns (h.getD a emptyTable)))))))
      = preSteps (h.getD a emptyTable) from rfl] at hok
  cases hlat : applyColE "latitude" (cellRangeCheck (-90) 90)
      (preSteps (h.getD a emptyTable)) with
  | error e => rw [hlat, ebind_err] at hok; cases hok
  | ok v =>
      rw [hlat, ebind_ok] at hok
      cases hlon : applyColE "longitude" (cellRangeCheck (-180) 180) v with
      | error e => rw [hlon, ebind_err] at hok; cases hok
      | ok v2 =>
          rw [hlon, ebind_ok] at hok
          simp only [epure_eq_ok] at hok
          have hpair := Except.ok.inj hok
          have hh2 : h ++ [v2] ++ [drop_duplicates v2] = h2 :=
            congrArg Prod.fst hpair
          have hrr : (h ++ [v2] ++ [drop_duplicates v2]).length - 1 = r :=
            congrArg Prod.snd hpair
          subst hh2
          subst hrr
          have hlen : (h ++ [v2] ++ [drop_duplicates v2]).length
              = h.length + 2 := by simp
          refine ⟨?_, ?_, ?_⟩
          · rw [List.append_assoc]
            exact heap_getD_left h _ a ha
          · rw [hlen]
            omega
          · have hre : (h ++ [v2] ++ [drop_duplicates v2]).length - 1
                = (h ++ [v2]).length := by simp
            rw [hre, heap_getD_last]
            rw [clean_data, normalizeSteps, hlat, ebind_ok, hlon, ebind_ok]
            rfl

/-- Witness for C8 on a one-element heap. -/
theorem c8_no_mutation_witness :
    ([(⟨["x"], [[Value.num 1]]⟩ : Table), ⟨["x"], [[Value.num 1]]⟩,
        ⟨["x"], [[Value.num 1]]⟩] : List Table).getD 0 emptyTable
      = ([(⟨["x"], [[Value.num 1]]⟩ : Table)] : List Table).getD 0 emptyTable :=
  (c8_no_mutation_of_input [⟨["x"], [[Value.num 1]]⟩] 0
    [⟨["x"], [[Value.num 1]]⟩, ⟨["x"], [[Value.num 1]]⟩, ⟨["x"], [[Value.num 1]]⟩]
    2 (by decide) rfl).1
